import Mathlib

/-!
Verification of the sunxi clock driver core (drivers/clk/sunxi): the bitfield
register view, the factor-table resolver, the factor clock node operations,
the PLL1 factor derivation and the fixed-rate gate clock node, shallowly
embedded over `Nat` with explicit 32-bit wrapping where the C code computes
in `u32`/`unsigned long` or `u8`.
-/

set_option maxHeartbeats 1000000
set_option maxRecDepth 100000

namespace SunxiClk

/-- Size of the 32-bit machine word (`u32` and `unsigned long` on this platform). -/
def U32 : Nat := 4294967296

/-- All-ones 32-bit word, the value of `-1U`. -/
def U32MAX : Nat := 4294967295

/-- Source: clk-factors.c `SETMASK(len, pos) (((-1U) >> (31-len)) << (pos))`,
truncated to the 32-bit word. -/
def SETMASK (len pos : Nat) : Nat := ((U32MAX >>> (31 - len)) <<< pos) % U32

/-- Source: clk-factors.c `CLRMASK(len, pos) (~(SETMASK(len, pos)))`, the
32-bit complement. -/
def CLRMASK (len pos : Nat) : Nat := U32MAX ^^^ SETMASK len pos

/-- Source: clk-factors.c `FACTOR_GET(bit, len, reg) (((reg) & SETMASK(len, bit)) >> (bit))`. -/
def FACTOR_GET (bit len reg : Nat) : Nat := (reg &&& SETMASK len bit) >>> bit

/-- Source: clk-factors.c
`FACTOR_SET(bit, len, reg, val) (((reg) & CLRMASK(len, bit)) | (val << (bit)))`. -/
def FACTOR_SET (bit len reg val : Nat) : Nat :=
  (reg &&& CLRMASK len bit) ||| ((val <<< bit) % U32)

/-- Source: clk-factors.h `struct clk_factor_table { u8 n, k, m, p; u32 val; }`. -/
structure clk_factor_table where
  n : Nat
  k : Nat
  m : Nat
  p : Nat
  val : Nat
  deriving DecidableEq, Repr

/-- Source: clk-factors.c `_get_table_factors`, one recursion step per array
entry, carrying the index of the current entry `clkt`.  The list models the
array entries before the terminating sentinel, so reaching the end of the list
models reaching an entry whose `val` is 0 (the loop exit); an explicit
zero-`val` entry inside the list is likewise treated as the sentinel, exactly
as the loop condition `clkt->val` does.  The result is the index of the
returned pointer relative to the start of the table, so `-1` models the
pointer `table - 1`, one entry before the table. -/
def getTableFactorsFrom (target : Nat) : List clk_factor_table → Nat → Int
  | [], i => (i : Int) - 1
  | e :: rest, i =>
    if e.val = 0 then (i : Int) - 1
    else if target < e.val then (i : Int) - 1
    else getTableFactorsFrom target rest (i + 1)

/-- Source: clk-factors.c `_get_table_factors(table, val)`: scan from the start
of the table. -/
def _get_table_factors (table : List clk_factor_table) (target : Nat) : Int :=
  getTableFactorsFrom target table 0

/-- Bitfield configuration of `struct clk_factors` (clk-factors.c): positions
and lengths of the four factor fields. -/
structure clk_factors where
  m : Nat
  mlen : Nat
  k : Nat
  klen : Nat
  n : Nat
  nlen : Nat
  p : Nat
  plen : Nat
  deriving DecidableEq, Repr

/-- Observable hardware and lock actions of a clock operation, in program order. -/
inductive RegEvent where
  | read : Nat → RegEvent
  | write : Nat → RegEvent
  | delay : Nat → RegEvent
  | lock : RegEvent
  | unlock : RegEvent
  deriving DecidableEq, Repr

/-- Source: clk-factors.c `clk_factors_recalc_rate`.  Returns the computed rate,
the register word after the call, and the trace of hardware accesses.
The products on `unsigned long` wrap at the 32-bit word. -/
def clk_factors_recalc_rate (f : clk_factors) (reg parent_rate : Nat) :
    Nat × Nat × List RegEvent :=
  let n := FACTOR_GET f.n f.nlen reg
  let k := FACTOR_GET f.k f.klen reg
  let p := FACTOR_GET f.p f.plen reg
  let m := FACTOR_GET f.m f.mlen reg
  let rate := ((parent_rate * n * (k + 1)) % U32 >>> p) / (m + 1)
  (rate, reg, [RegEvent.read reg])

/-- Source: clk-factors.c `clk_factors_set_rate`.  `hasLock` models a non-NULL
`factors->lock`.  The factor row is read through the pointer returned by
`_get_table_factors`; `none` models a dereference outside the table.  On
success, returns the final register word and the ordered event trace,
including the stabilization delay `__delay((rate >> 20) * 500 / 2)`. -/
def clk_factors_set_rate (f : clk_factors) (table : List clk_factor_table)
    (hasLock : Bool) (rate reg : Nat) : Option (Nat × List RegEvent) :=
  let idx := _get_table_factors table rate
  if h : idx.toNat < table.length ∧ 0 ≤ idx then
    let value := table.get ⟨idx.toNat, h.1⟩
    let reg1 := FACTOR_SET f.m f.mlen reg value.m
    let reg2 := FACTOR_SET f.k f.klen reg1 value.k
    let reg3 := FACTOR_SET f.n f.nlen reg2 value.n
    let reg4 := FACTOR_SET f.p f.plen reg3 value.p
    let d := ((rate >>> 20) * 500) % U32 / 2
    some (reg4,
      (if hasLock then [RegEvent.lock] else []) ++
      [RegEvent.read reg, RegEvent.write reg4, RegEvent.delay d] ++
      (if hasLock then [RegEvent.unlock] else []))
  else none

/-- Cells reachable through the five pointer arguments of
`sunxi_get_pll1_factors` (clk-sunxi.c). -/
structure PLL1Cells where
  freq : Nat
  n : Nat
  k : Nat
  m : Nat
  p : Nat
  deriving DecidableEq, Repr

/-- Source: clk-sunxi.c `sunxi_get_pll1_factors`, the `k` selection:
`if (*freq >= 768000000 || *freq == 42000000 || *freq == 54000000) *k = 1; else *k = 0;`
applied to the already rounded frequency. -/
def pll1K (freq : Nat) : Nat :=
  if 768000000 ≤ freq ∨ freq = 42000000 ∨ freq = 54000000 then 1 else 0

/-- Source: clk-sunxi.c `sunxi_get_pll1_factors`, the ordered `p` branch
cascade on the `u8` divisor: `div < 10`, then `div < 20 || (div < 32 && (div & 1))`,
then `div < 40 || (div < 64 && (div & 2))`, else 0. -/
def pll1P (div : Nat) : Nat :=
  if div < 10 then 3
  else if div < 20 ∨ (div < 32 ∧ div &&& 1 ≠ 0) then 2
  else if div < 40 ∨ (div < 64 ∧ div &&& 2 ≠ 0) then 1
  else 0

/-- Source: clk-sunxi.c `sunxi_get_pll1_factors`, the final `n` computation
`div <<= *p; div /= (*k + 1); *n = div / 4;` on the `u8` local `div` (the left
shift truncates modulo 256). -/
def pll1N (div k p : Nat) : Nat :=
  ((div <<< p) % 256) / (k + 1) / 4

/-- Source: clk-sunxi.c `sunxi_get_pll1_factors`.  `nNull` models a NULL `n`
argument (the round-rate-only query, which returns right after writing the
rounded frequency).  The local `div` is a `u8`, so the initial quotient
truncates modulo 256; `*freq` is a `u32`. -/
def sunxi_get_pll1_factors (nNull : Bool) (c : PLL1Cells) : PLL1Cells :=
  let div := (c.freq / 6000000) % 256
  let freq := (6000000 * div) % U32
  if nNull then { c with freq := freq }
  else
    let m := 0
    let k := pll1K freq
    let p := pll1P div
    let n := pll1N div k p
    { freq := freq, n := n, k := k, m := m, p := p }

/-- Source: clk-sunxi.c `pll1_config`: bitfield layout of the PLL1 control
register (nshift 8, nwidth 5, kshift 4, kwidth 2, mshift 0, mwidth 2,
pshift 16, pwidth 2). -/
def pll1_config : clk_factors :=
  { m := 0, mlen := 2, k := 4, klen := 2, n := 8, nlen := 5, p := 16, plen := 2 }

/-- Source: clk-fixed-gate.c `struct clk_fixed_gate`: the gate bit index and the
immutable configured rate (register address and lock modelled externally). -/
structure clk_fixed_gate where
  bit_idx : Nat
  fixed_rate : Nat
  deriving DecidableEq, Repr

/-- Source: the kernel `BIT(nr) (1UL << (nr))` macro, truncated to the 32-bit word. -/
def BIT (nr : Nat) : Nat := (1 <<< nr) % U32

/-- Source: clk-fixed-gate.c `clk_fixed_gate_endisable`: read the register, set
or clear the gate bit, write the word back.  The register transformation is the
whole observable state change. -/
def clk_fixed_gate_endisable (g : clk_fixed_gate) (enable : Bool) (reg : Nat) : Nat :=
  if enable then reg ||| BIT g.bit_idx
  else reg &&& (U32MAX ^^^ BIT g.bit_idx)

/-- Source: clk-fixed-gate.c `clk_fixed_gate_enable`. -/
def clk_fixed_gate_enable (g : clk_fixed_gate) (reg : Nat) : Nat :=
  clk_fixed_gate_endisable g true reg

/-- Source: clk-fixed-gate.c `clk_fixed_gate_disable`. -/
def clk_fixed_gate_disable (g : clk_fixed_gate) (reg : Nat) : Nat :=
  clk_fixed_gate_endisable g false reg

/-- Source: clk-fixed-gate.c `clk_fixed_gate_is_enabled`: test the gate bit
(`return reg ? 1 : 0` after masking). -/
def clk_fixed_gate_is_enabled (g : clk_fixed_gate) (reg : Nat) : Bool :=
  decide (reg &&& BIT g.bit_idx ≠ 0)

/-- Source: clk-fixed-gate.c `clk_fixed_gate_recalc_rate`: returns the
configured fixed rate.  The register word is in scope through the node but is
never read or written, so the access trace is empty. -/
def clk_fixed_gate_recalc_rate (g : clk_fixed_gate) (_reg : Nat) : Nat × List RegEvent :=
  (g.fixed_rate, [])

/-- Apply a sequence of enable (`true`) / disable (`false`) calls to the gate
register word. -/
def applyGateOps (g : clk_fixed_gate) (ops : List Bool) (reg : Nat) : Nat :=
  ops.foldl (fun r e => clk_fixed_gate_endisable g e r) reg

/-- C10: when `sunxi_get_pll1_factors` is called with a NULL pointer for `n`
(a round-rate-only query), it writes only the rounded frequency through the
`freq` pointer and returns immediately; the `k`, `m` and `p` output cells are
left unwritten and no other state is modified. -/
theorem pll1_round_only_writes_freq (c : PLL1Cells) :
    sunxi_get_pll1_factors true c =
      { c with freq := (6000000 * ((c.freq / 6000000) % 256)) % U32 } ∧
    (sunxi_get_pll1_factors true c).n = c.n ∧
    (sunxi_get_pll1_factors true c).k = c.k ∧
    (sunxi_get_pll1_factors true c).m = c.m ∧
    (sunxi_get_pll1_factors true c).p = c.p :=
  ⟨rfl, rfl, rfl, rfl, rfl⟩

/-- C5: for every register word and every parent rate,
`clk_factors_recalc_rate` returns `(parent_rate * n * (k + 1) >> p) / (m + 1)`
in 32-bit arithmetic, where `n`, `k`, `p`, `m` are the values extracted by the
bitfield view at the node's configured offsets and lengths, and it leaves the
register unchanged and performs no write. -/
theorem recalc_rate_formula_no_write (f : clk_factors) (reg parent_rate : Nat) :
    (clk_factors_recalc_rate f reg parent_rate).1 =
      ((parent_rate * FACTOR_GET f.n f.nlen reg * (FACTOR_GET f.k f.klen reg + 1)) % U32 >>>
          FACTOR_GET f.p f.plen reg) / (FACTOR_GET f.m f.mlen reg + 1) ∧
    (clk_factors_recalc_rate f reg parent_rate).2.1 = reg ∧
    ∀ v : Nat, RegEvent.write v ∉ (clk_factors_recalc_rate f reg parent_rate).2.2 := by
  refine ⟨rfl, rfl, ?_⟩
  intro v
  simp [clk_factors_recalc_rate]

/-- C8: for the fixed gate clock node, starting from any register state,
`is_enabled` is true immediately after `enable` and false immediately after
`disable`, and `recalc_rate` returns the immutable configured fixed rate after
any sequence of enable/disable calls, with an empty hardware-access trace. -/
theorem gate_enable_disable_rate_invariant (g : clk_fixed_gate) (reg : Nat)
    (hbit : g.bit_idx < 32) :
    clk_fixed_gate_is_enabled g (clk_fixed_gate_enable g reg) = true ∧
    clk_fixed_gate_is_enabled g (clk_fixed_gate_disable g reg) = false ∧
    ∀ ops : List Bool,
      (clk_fixed_gate_recalc_rate g (applyGateOps g ops reg)).1 = g.fixed_rate ∧
      (clk_fixed_gate_recalc_rate g (applyGateOps g ops reg)).2 = [] := by
  have hBIT : BIT g.bit_idx = 2 ^ g.bit_idx := by
    unfold BIT U32
    rw [Nat.one_shiftLeft]
    exact Nat.mod_eq_of_lt
      (lt_of_lt_of_le (Nat.pow_lt_pow_right (by norm_num) hbit) (by norm_num))
  refine ⟨?_, ?_, fun ops => ⟨rfl, rfl⟩⟩
  · simp only [clk_fixed_gate_enable, clk_fixed_gate_endisable, if_pos,
      clk_fixed_gate_is_enabled, hBIT, decide_eq_true_eq]
    intro h0
    have hb : ((reg ||| 2 ^ g.bit_idx) &&& 2 ^ g.bit_idx).testBit g.bit_idx = true := by
      simp [Nat.testBit_and, Nat.testBit_or, Nat.testBit_two_pow_self]
    rw [h0] at hb
    simp [Nat.zero_testBit] at hb
  · have hzero : (reg &&& (U32MAX ^^^ 2 ^ g.bit_idx)) &&& 2 ^ g.bit_idx = 0 := by
      apply Nat.eq_of_testBit_eq
      intro i
      simp only [Nat.testBit_and, Nat.testBit_xor, Nat.zero_testBit]
      by_cases hbi : g.bit_idx = i
      · subst hbi
        have h1 : Nat.testBit U32MAX g.bit_idx = true := by
          have hU : U32MAX = 2 ^ 32 - 1 := by norm_num [U32MAX]
          rw [hU, Nat.testBit_two_pow_sub_one]
          simpa using hbit
        simp [h1, Nat.testBit_two_pow_self]
      · simp [Nat.testBit_two_pow_of_ne hbi]
    simp [clk_fixed_gate_disable, clk_fixed_gate_endisable, clk_fixed_gate_is_enabled,
      hBIT, hzero]

/-- C4 counterexample: the local `div` of `sunxi_get_pll1_factors` is a `u8`,
so at the target 1,536,000,000 (whose 6 MHz divisor is 256) the stored divisor
truncates to 0 and the returned rounded frequency is 0, not the largest
multiple of 6 MHz not exceeding the target. -/
theorem pll1_normalize_truncation_counterexample :
    (sunxi_get_pll1_factors true ⟨1536000000, 0, 0, 0, 0⟩).freq = 0 ∧
    6000000 * (1536000000 / 6000000) = 1536000000 ∧
    ¬ ((sunxi_get_pll1_factors true ⟨1536000000, 0, 0, 0, 0⟩).freq =
        6000000 * (1536000000 / 6000000)) := by
  decide

/-- C4 (amended): for every target frequency whose 6 MHz divisor fits the `u8`
local (`target / 6000000 ≤ 255`), the derivation computes
`div = target / 6000000`, returns the rounded frequency `6000000 * div`, and
that value is the largest multiple of 6 MHz not exceeding the target; the
round-only and full derivation paths agree on it. -/
theorem pll1_normalize_six_mhz_grid (c : PLL1Cells) (h : c.freq / 6000000 ≤ 255) :
    (sunxi_get_pll1_factors true c).freq = 6000000 * (c.freq / 6000000) ∧
    (sunxi_get_pll1_factors true c).freq ≤ c.freq ∧
    (∀ y : Nat, 6000000 ∣ y → y ≤ c.freq → y ≤ (sunxi_get_pll1_factors true c).freq) ∧
    (sunxi_get_pll1_factors false c).freq = (sunxi_get_pll1_factors true c).freq := by
  have hlt : c.freq / 6000000 < 256 := Nat.lt_succ_of_le h
  have hmod : c.freq / 6000000 % 256 = c.freq / 6000000 := Nat.mod_eq_of_lt hlt
  have hfreq : (sunxi_get_pll1_factors true c).freq = 6000000 * (c.freq / 6000000) := by
    show (6000000 * (c.freq / 6000000 % 256)) % U32 = _
    rw [hmod]
    exact Nat.mod_eq_of_lt (by unfold U32; omega)
  refine ⟨hfreq, ?_, ?_, rfl⟩
  · rw [hfreq, Nat.mul_comm]
    exact Nat.div_mul_le_self _ _
  · intro y hdvd hy
    obtain ⟨t, rfl⟩ := hdvd
    rw [hfreq]
    exact Nat.mul_le_mul_left _ ((Nat.le_div_iff_mul_le (by norm_num)).mpr (by omega))

/-- C4 witness: at target 1,000,000,000 the divisor is 166 and the rounded
frequency is 996,000,000. -/
theorem pll1_normalize_six_mhz_grid_witness :
    1000000000 / 6000000 ≤ 255 ∧
    ((sunxi_get_pll1_factors true ⟨1000000000, 0, 0, 0, 0⟩).freq =
        6000000 * (1000000000 / 6000000) ∧
      (sunxi_get_pll1_factors true ⟨1000000000, 0, 0, 0, 0⟩).freq ≤ 1000000000 ∧
      (∀ y : Nat, 6000000 ∣ y → y ≤ 1000000000 →
        y ≤ (sunxi_get_pll1_factors true ⟨1000000000, 0, 0, 0, 0⟩).freq) ∧
      (sunxi_get_pll1_factors false ⟨1000000000, 0, 0, 0, 0⟩).freq =
        (sunxi_get_pll1_factors true ⟨1000000000, 0, 0, 0, 0⟩).freq) ∧
    1000000000 / 6000000 = 166 ∧
    (sunxi_get_pll1_factors true ⟨1000000000, 0, 0, 0, 0⟩).freq = 996000000 :=
  ⟨by decide, pll1_normalize_six_mhz_grid ⟨1000000000, 0, 0, 0, 0⟩ (by decide),
    by decide, by decide⟩

/-- Unfolded form of the full (non-NULL) PLL1 derivation, fields expressed
through the helper selections. -/
lemma pll1_fields (c : PLL1Cells) :
    sunxi_get_pll1_factors false c =
      { freq := (6000000 * ((c.freq / 6000000) % 256)) % U32,
        n := pll1N ((c.freq / 6000000) % 256)
               (pll1K ((6000000 * ((c.freq / 6000000) % 256)) % U32))
               (pll1P ((c.freq / 6000000) % 256)),
        k := pll1K ((6000000 * ((c.freq / 6000000) % 256)) % U32),
        m := 0,
        p := pll1P ((c.freq / 6000000) % 256) } :=
  rfl

/-- Exhaustive check over the 256 possible `u8` divisors: every derived factor
set fits the PLL1 field widths. -/
lemma pll1_bounds : ∀ d : Nat, d < 256 →
    pll1N d (pll1K ((6000000 * d) % U32)) (pll1P d) < 32 ∧
    pll1K ((6000000 * d) % U32) < 4 ∧
    (0 : Nat) < 4 ∧
    pll1P d < 4 := by
  decide

/-- Exhaustive check over the 256 possible `u8` divisors: the derived factors
agree with the claim-level formulas (no `u8` truncation fires in the `n`
computation, `div & 1` is parity, `div & 2` is bit 1). -/
lemma pll1_claim_formulas : ∀ d : Nat, d < 256 →
    (pll1K ((6000000 * d) % U32) = 1 ∨ pll1K ((6000000 * d) % U32) = 0) ∧
    (pll1K ((6000000 * d) % U32) = 1 ↔
      (768000000 ≤ 6000000 * d ∨ 6000000 * d = 42000000 ∨ 6000000 * d = 54000000)) ∧
    pll1P d =
      (if d < 10 then 3
       else if d < 20 ∨ (d < 32 ∧ d % 2 = 1) then 2
       else if d < 40 ∨ (d < 64 ∧ Nat.testBit d 1) then 1
       else 0) ∧
    pll1N d (pll1K ((6000000 * d) % U32)) (pll1P d) =
      (d <<< pll1P d) / (pll1K ((6000000 * d) % U32) + 1) / 4 := by
  decide

/-- C9: for every input frequency, the factor set produced by
`sunxi_get_pll1_factors` fits the PLL1 bitfield widths configured in
`pll1_config`: `n < 2^5`, `k < 2^2`, `m < 2^2`, `p < 2^2`, with no explicit
range check in the derivation. -/
theorem pll1_factors_fit_bitfields (c : PLL1Cells) :
    (sunxi_get_pll1_factors false c).n < 2 ^ pll1_config.nlen ∧
    (sunxi_get_pll1_factors false c).k < 2 ^ pll1_config.klen ∧
    (sunxi_get_pll1_factors false c).m < 2 ^ pll1_config.mlen ∧
    (sunxi_get_pll1_factors false c).p < 2 ^ pll1_config.plen := by
  rw [pll1_fields]
  generalize hgen : (c.freq / 6000000) % 256 = d
  have hd : d < 256 := by
    rw [← hgen]
    exact Nat.mod_lt _ (by norm_num)
  obtain ⟨h1, h2, h3, h4⟩ := pll1_bounds d hd
  exact ⟨h1, h2, h3, h4⟩

/-- C1: for every target whose 6 MHz divisor is at most 255, the PLL1
derivation produces `m = 0`; `k = 1` exactly when the rounded frequency is at
least 768 MHz or equals 42 MHz or 54 MHz, else `k = 0`; `p` by the ordered
divisor-range branches; and `n = (div << p) / (k + 1) / 4` with truncating
division in exactly that order. -/
theorem pll1_derivation_factors (c : PLL1Cells) (h : c.freq / 6000000 ≤ 255) :
    (sunxi_get_pll1_factors false c).m = 0 ∧
    ((sunxi_get_pll1_factors false c).k = 1 ∨ (sunxi_get_pll1_factors false c).k = 0) ∧
    ((sunxi_get_pll1_factors false c).k = 1 ↔
      (768000000 ≤ 6000000 * (c.freq / 6000000) ∨
        6000000 * (c.freq / 6000000) = 42000000 ∨
        6000000 * (c.freq / 6000000) = 54000000)) ∧
    (sunxi_get_pll1_factors false c).p =
      (if c.freq / 6000000 < 10 then 3
       else if c.freq / 6000000 < 20 ∨ (c.freq / 6000000 < 32 ∧ c.freq / 6000000 % 2 = 1) then 2
       else if c.freq / 6000000 < 40 ∨
           (c.freq / 6000000 < 64 ∧ Nat.testBit (c.freq / 6000000) 1) then 1
       else 0) ∧
    (sunxi_get_pll1_factors false c).n =
      ((c.freq / 6000000) <<< (sunxi_get_pll1_factors false c).p) /
        ((sunxi_get_pll1_factors false c).k + 1) / 4 := by
  have hd : c.freq / 6000000 < 256 := Nat.lt_succ_of_le h
  have hmod : c.freq / 6000000 % 256 = c.freq / 6000000 := Nat.mod_eq_of_lt hd
  rw [pll1_fields, hmod]
  obtain ⟨h1, h2, h3, h4⟩ := pll1_claim_formulas (c.freq / 6000000) hd
  exact ⟨rfl, h1, h2, h3, h4⟩

/-- C1 witness: at target 1,000,000,000 (divisor 166) the derivation yields the
factor set `n = 20`, `k = 1`, `m = 0`, `p = 0` and all the claimed formulas
hold there. -/
theorem pll1_derivation_factors_witness :
    1000000000 / 6000000 ≤ 255 ∧
    ((sunxi_get_pll1_factors false ⟨1000000000, 0, 0, 0, 0⟩).m = 0 ∧
      ((sunxi_get_pll1_factors false ⟨1000000000, 0, 0, 0, 0⟩).k = 1 ∨
        (sunxi_get_pll1_factors false ⟨1000000000, 0, 0, 0, 0⟩).k = 0) ∧
      ((sunxi_get_pll1_factors false ⟨1000000000, 0, 0, 0, 0⟩).k = 1 ↔
        (768000000 ≤ 6000000 * (1000000000 / 6000000) ∨
          6000000 * (1000000000 / 6000000) = 42000000 ∨
          6000000 * (1000000000 / 6000000) = 54000000)) ∧
      (sunxi_get_pll1_factors false ⟨1000000000, 0, 0, 0, 0⟩).p =
        (if 1000000000 / 6000000 < 10 then 3
         else if 1000000000 / 6000000 < 20 ∨
             (1000000000 / 6000000 < 32 ∧ 1000000000 / 6000000 % 2 = 1) then 2
         else if 1000000000 / 6000000 < 40 ∨
             (1000000000 / 6000000 < 64 ∧ Nat.testBit (1000000000 / 6000000) 1) then 1
         else 0) ∧
      (sunxi_get_pll1_factors false ⟨1000000000, 0, 0, 0, 0⟩).n =
        ((1000000000 / 6000000) <<< (sunxi_get_pll1_factors false ⟨1000000000, 0, 0, 0, 0⟩).p) /
          ((sunxi_get_pll1_factors false ⟨1000000000, 0, 0, 0, 0⟩).k + 1) / 4) ∧
    sunxi_get_pll1_factors false ⟨1000000000, 0, 0, 0, 0⟩ = ⟨996000000, 20, 1, 0, 0⟩ :=
  ⟨by decide, pll1_derivation_factors ⟨1000000000, 0, 0, 0, 0⟩ (by decide), by decide⟩

/-- C8 witness: the oscillator gate node (gate bit 0, fixed rate 24 MHz)
satisfies the enable/disable/rate contract starting from register value 5. -/
theorem gate_enable_disable_rate_invariant_witness :
    (0 : Nat) < 32 ∧
    (clk_fixed_gate_is_enabled ⟨0, 24000000⟩
        (clk_fixed_gate_enable ⟨0, 24000000⟩ 5) = true ∧
      clk_fixed_gate_is_enabled ⟨0, 24000000⟩
        (clk_fixed_gate_disable ⟨0, 24000000⟩ 5) = false ∧
      ∀ ops : List Bool,
        (clk_fixed_gate_recalc_rate ⟨0, 24000000⟩
            (applyGateOps ⟨0, 24000000⟩ ops 5)).1 = 24000000 ∧
        (clk_fixed_gate_recalc_rate ⟨0, 24000000⟩
            (applyGateOps ⟨0, 24000000⟩ ops 5)).2 = []) :=
  ⟨by decide, gate_enable_disable_rate_invariant ⟨0, 24000000⟩ 5 (by decide)⟩

/-- The takeWhile prefix is never longer than the list. -/
lemma takeWhile_length_le {α : Type} (p : α → Bool) :
    ∀ l : List α, (l.takeWhile p).length ≤ l.length := by
  intro l
  induction l with
  | nil => simp
  | cons a l ih =>
    rw [List.takeWhile_cons]
    by_cases hp : p a
    · simpa [hp] using Nat.succ_le_succ ih
    · simp [hp]

/-- Every position strictly inside the takeWhile prefix satisfies the predicate. -/
lemma takeWhile_get?_true {α : Type} (p : α → Bool) :
    ∀ (l : List α) (j : Nat), j < (l.takeWhile p).length →
      ∀ a, l.get? j = some a → p a = true := by
  intro l
  induction l with
  | nil => intro j hj; simp at hj
  | cons x l ih =>
    intro j hj a ha
    rw [List.takeWhile_cons] at hj
    by_cases hp : p x
    · rw [if_pos hp] at hj
      cases j with
      | zero =>
        simp only [List.get?] at ha
        cases ha
        exact hp
      | succ j =>
        simp only [List.length_cons] at hj
        exact ih j (by omega) a ha
    · rw [if_neg hp] at hj
      simp at hj

/-- The position right after the takeWhile prefix, when it exists, falsifies
the predicate. -/
lemma takeWhile_get?_false {α : Type} (p : α → Bool) :
    ∀ (l : List α) (a : α), l.get? (l.takeWhile p).length = some a → p a = false := by
  intro l
  induction l with
  | nil => intro a ha; simp at ha
  | cons x l ih =>
    intro a ha
    rw [List.takeWhile_cons] at ha
    by_cases hp : p x
    · rw [if_pos hp] at ha
      simp only [List.length_cons, List.get?] at ha
      exact ih a ha
    · rw [if_neg hp] at ha
      simp only [List.length_nil, List.get?] at ha
      cases ha
      exact (Bool.not_eq_true _).mp hp

/-- Closed form of the scan: starting at index `i` on a sentinel-free list, the
returned index is `i` plus the length of the prefix of entries with `val` at
most the target, minus one. -/
lemma getTableFactorsFrom_eq (target : Nat) :
    ∀ (l : List clk_factor_table) (i : Nat), (∀ e ∈ l, e.val ≠ 0) →
      getTableFactorsFrom target l i =
        (i : Int) + ((l.takeWhile fun e => decide (e.val ≤ target)).length : Int) - 1 := by
  intro l
  induction l with
  | nil => intro i _; simp [getTableFactorsFrom]
  | cons e rest ih =>
    intro i h
    have he : e.val ≠ 0 := h e (List.mem_cons_self e rest)
    by_cases ht : target < e.val
    · have hpred : (decide (e.val ≤ target)) = false := by
        simp only [decide_eq_false_iff_not]
        omega
      simp [getTableFactorsFrom, he, ht, List.takeWhile_cons, hpred]
    · have hpred : (decide (e.val ≤ target)) = true := by
        simp only [decide_eq_true_eq]
        omega
      have hrec := ih (i + 1) (fun x hx => h x (List.mem_cons_of_mem e hx))
      simp only [getTableFactorsFrom, he, ht, if_false, if_neg, ite_false]
      rw [hrec, List.takeWhile_cons, if_pos hpred]
      simp only [List.length_cons]
      push_cast
      ring

/-- The resolver result is the length of the prefix of entries not above the
target, minus one. -/
lemma get_table_factors_eq (table : List clk_factor_table) (target : Nat)
    (hpos : ∀ e ∈ table, e.val ≠ 0) :
    _get_table_factors table target =
      ((table.takeWhile fun e => decide (e.val ≤ target)).length : Int) - 1 := by
  unfold _get_table_factors
  rw [getTableFactorsFrom_eq target table 0 hpos]
  push_cast
  ring

/-- When the target is at least the first entry's value, the resolver returns
an in-range index. -/
lemma get_table_factors_mem (table : List clk_factor_table) (target : Nat)
    (hpos : ∀ e ∈ table, e.val ≠ 0) (hne : table ≠ [])
    (hfirst : (table.head hne).val ≤ target) :
    0 ≤ _get_table_factors table target ∧
      (_get_table_factors table target).toNat < table.length := by
  have h0 : 0 < table.length := List.length_pos.mpr hne
  have hL1 : 1 ≤ (table.takeWhile fun e => decide (e.val ≤ target)).length := by
    by_contra hcon
    have hL0 : (table.takeWhile fun e => decide (e.val ≤ target)).length = 0 := by omega
    have hhead : table.get? 0 = some (table.head hne) := by
      cases table with
      | nil => exact absurd rfl hne
      | cons a l => rfl
    have := takeWhile_get?_false (fun e => decide (e.val ≤ target)) table (table.head hne)
      (by rw [hL0]; exact hhead)
    simp only [decide_eq_false_iff_not] at this
    exact this hfirst
  have hLle : (table.takeWhile fun e => decide (e.val ≤ target)).length ≤ table.length :=
    takeWhile_length_le _ table
  rw [get_table_factors_eq table target hpos]
  constructor
  · omega
  · omega

/-- C3 counterexample: on the three-row table at 6, 12 and 24 MHz, resolving a
1 Hz target (below the first entry) returns index `-1`, the position one entry
before the table, which is not the index of any table entry. -/
theorem resolver_below_first_counterexample :
    _get_table_factors
      [⟨1, 0, 0, 0, 6000000⟩, ⟨2, 0, 0, 0, 12000000⟩, ⟨4, 0, 0, 0, 24000000⟩] 1 = -1 ∧
    ∀ j : Fin 3, (-1 : Int) ≠ (j : Nat) := by
  refine ⟨by decide, ?_⟩
  intro j
  omega

/-- C3 (amended): on a non-empty sentinel-terminated table, the resolver
always terminates with a definite index: an index of some table entry whenever
the target is at least the first entry's value, and the out-of-table position
`-1` (one entry before the table start) when the target is strictly below the
first entry's value. -/
theorem resolver_total_within_table (table : List clk_factor_table) (target : Nat)
    (hne : table ≠ []) (hpos : ∀ e ∈ table, e.val ≠ 0) :
    ((table.head hne).val ≤ target →
      ∃ j : Fin table.length, _get_table_factors table target = ((j : Nat) : Int)) ∧
    (target < (table.head hne).val → _get_table_factors table target = -1) := by
  constructor
  · intro hfirst
    obtain ⟨hge, hlt⟩ := get_table_factors_mem table target hpos hne hfirst
    refine ⟨⟨(_get_table_factors table target).toNat, hlt⟩, ?_⟩
    show _get_table_factors table target = ((_get_table_factors table target).toNat : Int)
    omega
  · intro hfirst
    have hL0 : (table.takeWhile fun e => decide (e.val ≤ target)).length = 0 := by
      cases table with
      | nil => exact absurd rfl hne
      | cons a l =>
        have hpred : (decide (a.val ≤ target)) = false := by
          simp only [decide_eq_false_iff_not]
          simp only [List.head_cons] at hfirst
          omega
        simp [List.takeWhile_cons, hpred]
    rw [get_table_factors_eq table target hpos, hL0]
    simp

/-- C3 witness: on the concrete three-row table, a target at or above the
first entry resolves to a table index, and a target below it resolves to `-1`. -/
theorem resolver_total_within_table_witness :
    (([⟨1, 0, 0, 0, 6000000⟩, ⟨2, 0, 0, 0, 12000000⟩, ⟨4, 0, 0, 0, 24000000⟩] :
        List clk_factor_table) ≠ []) ∧
    (∀ e ∈ ([⟨1, 0, 0, 0, 6000000⟩, ⟨2, 0, 0, 0, 12000000⟩, ⟨4, 0, 0, 0, 24000000⟩] :
        List clk_factor_table), e.val ≠ 0) ∧
    ((6000000 ≤ 10000000 →
      ∃ j : Fin ([⟨1, 0, 0, 0, 6000000⟩, ⟨2, 0, 0, 0, 12000000⟩,
          (⟨4, 0, 0, 0, 24000000⟩ : clk_factor_table)]).length,
        _get_table_factors
          [⟨1, 0, 0, 0, 6000000⟩, ⟨2, 0, 0, 0, 12000000⟩, ⟨4, 0, 0, 0, 24000000⟩] 10000000 =
          ((j : Nat) : Int)) ∧
    (10000000 < 6000000 →
      _get_table_factors
        [⟨1, 0, 0, 0, 6000000⟩, ⟨2, 0, 0, 0, 12000000⟩, ⟨4, 0, 0, 0, 24000000⟩] 10000000 = -1)) :=
  ⟨by decide, by decide,
    resolver_total_within_table
      [⟨1, 0, 0, 0, 6000000⟩, ⟨2, 0, 0, 0, 12000000⟩, ⟨4, 0, 0, 0, 24000000⟩] 10000000
      (by decide) (by decide)⟩

/-- C2: on a non-empty, strictly sorted, sentinel-terminated factor table, for
every target at least the first entry's value, the resolver returns the index
of the last entry whose value is at most the target, and clamps to the last
real entry when the target is at or above it. -/
theorem resolver_floor_lookup (table : List clk_factor_table) (target : Nat)
    (hne : table ≠ [])
    (hpos : ∀ e ∈ table, e.val ≠ 0)
    (hsorted : table.Pairwise (fun a b => a.val < b.val))
    (hfirst : (table.head hne).val ≤ target) :
    ∃ j : Fin table.length,
      _get_table_factors table target = ((j : Nat) : Int) ∧
      (table.get j).val ≤ target ∧
      (∀ m : Fin table.length, (j : Nat) < (m : Nat) → target < (table.get m).val) ∧
      ((table.getLast hne).val ≤ target → (j : Nat) = table.length - 1) := by
  obtain ⟨hge, hlt⟩ := get_table_factors_mem table target hpos hne hfirst
  set L := (table.takeWhile fun e => decide (e.val ≤ target)).length with hL
  have heq : _get_table_factors table target = (L : Int) - 1 :=
    get_table_factors_eq table target hpos
  have hL1 : 1 ≤ L := by
    rw [heq] at hge
    omega
  have hLle : L ≤ table.length := takeWhile_length_le _ table
  refine ⟨⟨L - 1, by omega⟩, ?_, ?_, ?_, ?_⟩
  · simp only [Fin.val_mk]
    omega
  · have hj : L - 1 < table.length := by omega
    have h1 := takeWhile_get?_true (fun e => decide (e.val ≤ target)) table (L - 1)
      (by omega) (table.get ⟨L - 1, hj⟩) (List.get?_eq_get hj)
    simpa using h1
  · intro m hm
    have hmL : L ≤ (m : Nat) := by
      have := hm
      simp only [Fin.val_mk] at this
      omega
    have hLlt : L < table.length := lt_of_le_of_lt hmL m.isLt
    have hfalse := takeWhile_get?_false (fun e => decide (e.val ≤ target)) table
      (table.get ⟨L, hLlt⟩) (List.get?_eq_get hLlt)
    simp only [decide_eq_false_iff_not, Nat.not_le] at hfalse
    rcases Nat.eq_or_lt_of_le hmL with hmeq | hmgt
    · have hgm : table.get m = table.get ⟨L, hLlt⟩ := by
        congr 1
        exact Fin.ext hmeq.symm
      rw [hgm]
      exact hfalse
    · have hlt2 := (List.pairwise_iff_get.mp hsorted) ⟨L, hLlt⟩ m hmgt
      exact lt_trans hfalse hlt2
  · intro hlast
    simp only [Fin.val_mk]
    by_contra hcon
    have hLlt : L < table.length := by omega
    have hfalse := takeWhile_get?_false (fun e => decide (e.val ≤ target)) table
      (table.get ⟨L, hLlt⟩) (List.get?_eq_get hLlt)
    simp only [decide_eq_false_iff_not, Nat.not_le] at hfalse
    have hlast_eq : table.getLast hne = table.get ⟨table.length - 1, by omega⟩ :=
      List.getLast_eq_get table hne
    rw [hlast_eq] at hlast
    by_cases hLl : L = table.length - 1
    · have hgm : table.get ⟨L, hLlt⟩ = table.get ⟨table.length - 1, by omega⟩ := by
        congr 1
        exact Fin.ext hLl
      rw [hgm] at hfalse
      omega
    · have hlt3 := (List.pairwise_iff_get.mp hsorted) ⟨L, hLlt⟩
        ⟨table.length - 1, by omega⟩ (by simp only [Fin.mk_lt_mk]; omega)
      omega

/-- C2 witness: on the table with rows at 6, 12 and 24 MHz, targets of 6, 10,
24 and 100 MHz all resolve to the floor row (6, 6, 24 and 24 MHz
respectively, the last two by clamping). -/
theorem resolver_floor_lookup_witness :
    (∀ e ∈ ([⟨1, 0, 0, 0, 6000000⟩, ⟨2, 0, 0, 0, 12000000⟩, ⟨4, 0, 0, 0, 24000000⟩] :
        List clk_factor_table), e.val ≠ 0) ∧
    (([⟨1, 0, 0, 0, 6000000⟩, ⟨2, 0, 0, 0, 12000000⟩, ⟨4, 0, 0, 0, 24000000⟩] :
        List clk_factor_table).Pairwise (fun a b => a.val < b.val)) ∧
    (∃ j : Fin ([⟨1, 0, 0, 0, 6000000⟩, ⟨2, 0, 0, 0, 12000000⟩,
        (⟨4, 0, 0, 0, 24000000⟩ : clk_factor_table)]).length,
      _get_table_factors
          [⟨1, 0, 0, 0, 6000000⟩, ⟨2, 0, 0, 0, 12000000⟩, ⟨4, 0, 0, 0, 24000000⟩] 6000000 =
        ((j : Nat) : Int) ∧
      (([⟨1, 0, 0, 0, 6000000⟩, ⟨2, 0, 0, 0, 12000000⟩,
          (⟨4, 0, 0, 0, 24000000⟩ : clk_factor_table)]).get j).val ≤ 6000000 ∧
      (∀ m : Fin ([⟨1, 0, 0, 0, 6000000⟩, ⟨2, 0, 0, 0, 12000000⟩,
          (⟨4, 0, 0, 0, 24000000⟩ : clk_factor_table)]).length,
        (j : Nat) < (m : Nat) →
          6000000 < (([⟨1, 0, 0, 0, 6000000⟩, ⟨2, 0, 0, 0, 12000000⟩,
              (⟨4, 0, 0, 0, 24000000⟩ : clk_factor_table)]).get m).val) ∧
      (24000000 ≤ 6000000 → (j : Nat) = 2)) ∧
    (∃ j : Fin ([⟨1, 0, 0, 0, 6000000⟩, ⟨2, 0, 0, 0, 12000000⟩,
        (⟨4, 0, 0, 0, 24000000⟩ : clk_factor_table)]).length,
      _get_table_factors
          [⟨1, 0, 0, 0, 6000000⟩, ⟨2, 0, 0, 0, 12000000⟩, ⟨4, 0, 0, 0, 24000000⟩] 10000000 =
        ((j : Nat) : Int) ∧
      (([⟨1, 0, 0, 0, 6000000⟩, ⟨2, 0, 0, 0, 12000000⟩,
          (⟨4, 0, 0, 0, 24000000⟩ : clk_factor_table)]).get j).val ≤ 10000000 ∧
      (∀ m : Fin ([⟨1, 0, 0, 0, 6000000⟩, ⟨2, 0, 0, 0, 12000000⟩,
          (⟨4, 0, 0, 0, 24000000⟩ : clk_factor_table)]).length,
        (j : Nat) < (m : Nat) →
          10000000 < (([⟨1, 0, 0, 0, 6000000⟩, ⟨2, 0, 0, 0, 12000000⟩,
              (⟨4, 0, 0, 0, 24000000⟩ : clk_factor_table)]).get m).val) ∧
      (24000000 ≤ 10000000 → (j : Nat) = 2)) ∧
    (∃ j : Fin ([⟨1, 0, 0, 0, 6000000⟩, ⟨2, 0, 0, 0, 12000000⟩,
        (⟨4, 0, 0, 0, 24000000⟩ : clk_factor_table)]).length,
      _get_table_factors
          [⟨1, 0, 0, 0, 6000000⟩, ⟨2, 0, 0, 0, 12000000⟩, ⟨4, 0, 0, 0, 24000000⟩] 24000000 =
        ((j : Nat) : Int) ∧
      (([⟨1, 0, 0, 0, 6000000⟩, ⟨2, 0, 0, 0, 12000000⟩,
          (⟨4, 0, 0, 0, 24000000⟩ : clk_factor_table)]).get j).val ≤ 24000000 ∧
      (∀ m : Fin ([⟨1, 0, 0, 0, 6000000⟩, ⟨2, 0, 0, 0, 12000000⟩,
          (⟨4, 0, 0, 0, 24000000⟩ : clk_factor_table)]).length,
        (j : Nat) < (m : Nat) →
          24000000 < (([⟨1, 0, 0, 0, 6000000⟩, ⟨2, 0, 0, 0, 12000000⟩,
              (⟨4, 0, 0, 0, 24000000⟩ : clk_factor_table)]).get m).val) ∧
      (24000000 ≤ 24000000 → (j : Nat) = 2)) ∧
    (∃ j : Fin ([⟨1, 0, 0, 0, 6000000⟩, ⟨2, 0, 0, 0, 12000000⟩,
        (⟨4, 0, 0, 0, 24000000⟩ : clk_factor_table)]).length,
      _get_table_factors
          [⟨1, 0, 0, 0, 6000000⟩, ⟨2, 0, 0, 0, 12000000⟩, ⟨4, 0, 0, 0, 24000000⟩] 100000000 =
        ((j : Nat) : Int) ∧
      (([⟨1, 0, 0, 0, 6000000⟩, ⟨2, 0, 0, 0, 12000000⟩,
          (⟨4, 0, 0, 0, 24000000⟩ : clk_factor_table)]).get j).val ≤ 100000000 ∧
      (∀ m : Fin ([⟨1, 0, 0, 0, 6000000⟩, ⟨2, 0, 0, 0, 12000000⟩,
          (⟨4, 0, 0, 0, 24000000⟩ : clk_factor_table)]).length,
        (j : Nat) < (m : Nat) →
          100000000 < (([⟨1, 0, 0, 0, 6000000⟩, ⟨2, 0, 0, 0, 12000000⟩,
              (⟨4, 0, 0, 0, 24000000⟩ : clk_factor_table)]).get m).val) ∧
      (24000000 ≤ 100000000 → (j : Nat) = 2)) :=
  ⟨by decide, by decide,
    resolver_floor_lookup
      [⟨1, 0, 0, 0, 6000000⟩, ⟨2, 0, 0, 0, 12000000⟩, ⟨4, 0, 0, 0, 24000000⟩] 6000000
      (by decide) (by decide) (by decide) (by decide),
    resolver_floor_lookup
      [⟨1, 0, 0, 0, 6000000⟩, ⟨2, 0, 0, 0, 12000000⟩, ⟨4, 0, 0, 0, 24000000⟩] 10000000
      (by decide) (by decide) (by decide) (by decide),
    resolver_floor_lookup
      [⟨1, 0, 0, 0, 6000000⟩, ⟨2, 0, 0, 0, 12000000⟩, ⟨4, 0, 0, 0, 24000000⟩] 24000000
      (by decide) (by decide) (by decide) (by decide),
    resolver_floor_lookup
      [⟨1, 0, 0, 0, 6000000⟩, ⟨2, 0, 0, 0, 12000000⟩, ⟨4, 0, 0, 0, 24000000⟩] 100000000
      (by decide) (by decide) (by decide) (by decide)⟩

/-- C7: a successful `clk_factors_set_rate` resolves the target, then — inside
the lock window when a shared lock is configured — reads the register, writes
the updated word, and performs a stabilization delay of exactly
`(rate >> 20) * 250` time units (`(rate >> 20) * 500 / 2` in the source)
before the lock is released: the delay event sits between the write and the
unlock in the trace. -/
theorem set_rate_delay_inside_lock (f : clk_factors) (table : List clk_factor_table)
    (hasLock : Bool) (rate reg : Nat)
    (hrate : rate < U32)
    (hne : table ≠ [])
    (hpos : ∀ e ∈ table, e.val ≠ 0)
    (hfirst : (table.head hne).val ≤ rate) :
    ∃ reg' : Nat,
      clk_factors_set_rate f table hasLock rate reg =
        some (reg',
          (if hasLock then [RegEvent.lock] else []) ++
          [RegEvent.read reg, RegEvent.write reg',
            RegEvent.delay ((rate >>> 20) * 250)] ++
          (if hasLock then [RegEvent.unlock] else [])) := by
  obtain ⟨hge, hlt⟩ := get_table_factors_mem table rate hpos hne hfirst
  have hdelay : ((rate >>> 20) * 500) % U32 / 2 = (rate >>> 20) * 250 := by
    rw [Nat.shiftRight_eq_div_pow]
    have h20 : (2 : Nat) ^ 20 = 1048576 := by norm_num
    rw [h20]
    unfold U32 at hrate ⊢
    omega
  simp only [clk_factors_set_rate]
  rw [dif_pos ⟨hlt, hge⟩, hdelay]
  exact ⟨_, rfl⟩

/-- C7 witness: on the 6/12/24 MHz table with the PLL1 bitfield layout, a
locked `set_rate` to 24 MHz from register value 0 produces the write and a
5500-unit delay strictly before the unlock. -/
theorem set_rate_delay_inside_lock_witness :
    (24000000 : Nat) < U32 ∧
    (([⟨1, 0, 0, 0, 6000000⟩, ⟨2, 0, 0, 0, 12000000⟩, ⟨4, 0, 0, 0, 24000000⟩] :
        List clk_factor_table) ≠ []) ∧
    (∀ e ∈ ([⟨1, 0, 0, 0, 6000000⟩, ⟨2, 0, 0, 0, 12000000⟩, ⟨4, 0, 0, 0, 24000000⟩] :
        List clk_factor_table), e.val ≠ 0) ∧
    (∃ reg' : Nat,
      clk_factors_set_rate pll1_config
          [⟨1, 0, 0, 0, 6000000⟩, ⟨2, 0, 0, 0, 12000000⟩, ⟨4, 0, 0, 0, 24000000⟩]
          true 24000000 0 =
        some (reg',
          (if true then [RegEvent.lock] else []) ++
          [RegEvent.read 0, RegEvent.write reg',
            RegEvent.delay ((24000000 >>> 20) * 250)] ++
          (if true then [RegEvent.unlock] else []))) :=
  ⟨by decide, by decide, by decide,
    set_rate_delay_inside_lock pll1_config
      [⟨1, 0, 0, 0, 6000000⟩, ⟨2, 0, 0, 0, 12000000⟩, ⟨4, 0, 0, 0, 24000000⟩]
      true 24000000 0 (by decide) (by decide) (by decide) (by decide)⟩

/-- Shifting the all-ones word right by `31 - len` leaves `len + 1` one bits:
the masks built by SETMASK are one bit wider than the configured length. -/
lemma U32MAX_shiftRight (len : Nat) (h : len ≤ 31) :
    U32MAX >>> (31 - len) = 2 ^ (len + 1) - 1 := by
  apply Nat.eq_of_testBit_eq
  intro i
  rw [Nat.testBit_shiftRight]
  have hU : U32MAX = 2 ^ 32 - 1 := by norm_num [U32MAX]
  rw [hU, Nat.testBit_two_pow_sub_one, Nat.testBit_two_pow_sub_one, decide_eq_decide]
  omega

/-- Closed form of SETMASK inside the word: a block of `len + 1` ones starting
at `pos`. -/
lemma SETMASK_eq {len pos : Nat} (h : pos + len ≤ 31) :
    SETMASK len pos = (2 ^ (len + 1) - 1) <<< pos := by
  unfold SETMASK
  rw [U32MAX_shiftRight len (by omega)]
  apply Nat.mod_eq_of_lt
  rw [Nat.shiftLeft_eq]
  have h1 : (2 ^ (len + 1) - 1) * 2 ^ pos < 2 ^ (len + 1) * 2 ^ pos :=
    (Nat.mul_lt_mul_right (Nat.two_pow_pos pos)).mpr
      (Nat.sub_lt (Nat.two_pow_pos (len + 1)) Nat.one_pos)
  have h2 : (2 : Nat) ^ (len + 1) * 2 ^ pos = 2 ^ (len + 1 + pos) := (pow_add 2 _ _).symm
  have h3 : (2 : Nat) ^ (len + 1 + pos) ≤ 2 ^ 32 := Nat.pow_le_pow_right (by norm_num) (by omega)
  have h4 : (2 : Nat) ^ 32 = U32 := by norm_num [U32]
  omega

/-- Bit `i` of SETMASK is set exactly on the window `[pos, pos + len]`. -/
lemma testBit_SETMASK {len pos : Nat} (h : pos + len ≤ 31) (i : Nat) :
    (SETMASK len pos).testBit i = decide (pos ≤ i ∧ i < pos + len + 1) := by
  rw [SETMASK_eq h, Nat.testBit_shiftLeft, Nat.testBit_two_pow_sub_one]
  by_cases hp : pos ≤ i
  · by_cases hlt : i < pos + len + 1
    · have h1 : i - pos < len + 1 := by omega
      have h2 : pos ≤ i ∧ i < pos + len + 1 := ⟨hp, hlt⟩
      simp [hp, h1, h2]
    · have h1 : ¬(i - pos < len + 1) := by omega
      have h2 : ¬(pos ≤ i ∧ i < pos + len + 1) := by omega
      simp [hp, h1, h2]
      omega
  · have : ¬(pos ≤ i ∧ i < pos + len + 1) := by omega
    simp [hp, this]

/-- Bit `i` of CLRMASK is set exactly on word bits outside the SETMASK window. -/
lemma testBit_CLRMASK {len pos : Nat} (h : pos + len ≤ 31) (i : Nat) :
    (CLRMASK len pos).testBit i =
      (decide (i < 32) && !(decide (pos ≤ i ∧ i < pos + len + 1))) := by
  unfold CLRMASK
  have hU : U32MAX = 2 ^ 32 - 1 := by norm_num [U32MAX]
  rw [Nat.testBit_xor, hU, Nat.testBit_two_pow_sub_one, testBit_SETMASK h]
  by_cases hi : i < 32
  · by_cases hs : pos ≤ i ∧ i < pos + len + 1 <;> simp [hi, hs]
  · have hs : ¬(pos ≤ i ∧ i < pos + len + 1) := by omega
    simp [hi, hs]

/-- A value below `2 ^ len` shifted to `pos` has no bits outside
`[pos, pos + len)`. -/
lemma testBit_val_shiftLeft_out {pos len v i : Nat} (hv : v < 2 ^ len)
    (hout : ¬(pos ≤ i ∧ i < pos + len)) : (v <<< pos).testBit i = false := by
  rw [Nat.testBit_shiftLeft]
  by_cases hp : pos ≤ i
  · have hle : len ≤ i - pos := by omega
    have : v < 2 ^ (i - pos) :=
      lt_of_lt_of_le hv (Nat.pow_le_pow_right (by norm_num) hle)
    simp [hp, Nat.testBit_lt_two_pow this]
  · simp [hp]

/-- In-range values shifted into an in-word window do not wrap at 32 bits. -/
lemma val_shiftLeft_mod {pos len v : Nat} (h : pos + len ≤ 31) (hv : v < 2 ^ len) :
    (v <<< pos) % U32 = v <<< pos := by
  apply Nat.mod_eq_of_lt
  rw [Nat.shiftLeft_eq]
  have h1 : v * 2 ^ pos < 2 ^ len * 2 ^ pos :=
    (Nat.mul_lt_mul_right (Nat.two_pow_pos pos)).mpr hv
  have h2 : (2 : Nat) ^ len * 2 ^ pos = 2 ^ (len + pos) := (pow_add 2 _ _).symm
  have h3 : (2 : Nat) ^ (len + pos) ≤ 2 ^ 32 := Nat.pow_le_pow_right (by norm_num) (by omega)
  have h4 : (2 : Nat) ^ 32 = U32 := by norm_num [U32]
  omega

/-- Writing an in-range value into a field and reading the same field back
returns the value. -/
lemma FACTOR_GET_SET_same {pos len : Nat} (h : pos + len ≤ 31) (reg v : Nat)
    (hv : v < 2 ^ len) :
    FACTOR_GET pos len (FACTOR_SET pos len reg v) = v := by
  unfold FACTOR_GET FACTOR_SET
  rw [val_shiftLeft_mod h hv]
  have hmasked : ((reg &&& CLRMASK len pos ||| v <<< pos) &&& SETMASK len pos) = v <<< pos := by
    apply Nat.eq_of_testBit_eq
    intro i
    simp only [Nat.testBit_and, Nat.testBit_or, testBit_SETMASK h, testBit_CLRMASK h]
    by_cases hs : pos ≤ i ∧ i < pos + len + 1
    · simp [hs]
    · have hva : (v <<< pos).testBit i = false := testBit_val_shiftLeft_out hv (by omega)
      simp [hs, hva]
  rw [hmasked, Nat.shiftLeft_shiftRight]

/-- Writing an in-range value into one field leaves the extraction of any
field whose mask window is disjoint from it unchanged. -/
lemma FACTOR_GET_SET_disjoint {pa la pb lb : Nat} (ha : pa + la ≤ 31) (hb : pb + lb ≤ 31)
    (hd : pa + la < pb ∨ pb + lb < pa) (reg v : Nat) (hv : v < 2 ^ la) :
    FACTOR_GET pb lb (FACTOR_SET pa la reg v) = FACTOR_GET pb lb reg := by
  unfold FACTOR_GET FACTOR_SET
  rw [val_shiftLeft_mod ha hv]
  have hmasked : ((reg &&& CLRMASK la pa ||| v <<< pa) &&& SETMASK lb pb) =
      reg &&& SETMASK lb pb := by
    apply Nat.eq_of_testBit_eq
    intro i
    simp only [Nat.testBit_and, Nat.testBit_or, testBit_SETMASK hb, testBit_CLRMASK ha]
    by_cases hs : pb ≤ i ∧ i < pb + lb + 1
    · have hi32 : i < 32 := by omega
      have hsa : ¬(pa ≤ i ∧ i < pa + la + 1) := by omega
      have hva : (v <<< pa).testBit i = false := testBit_val_shiftLeft_out hv (by omega)
      simp [hs, hsa, hi32, hva]
    · simp [hs]
  rw [hmasked]

/-- The four-field insertion sequence of `clk_factors_set_rate`, fields written
in the source order m, k, n, p. -/
def insertFactors (f : clk_factors) (reg vn vk vm vp : Nat) : Nat :=
  FACTOR_SET f.p f.plen
    (FACTOR_SET f.n f.nlen
      (FACTOR_SET f.k f.klen
        (FACTOR_SET f.m f.mlen reg vm) vk) vn) vp

/-- C6 counterexample: two fields of width 2 at offsets 0 and 2 do not overlap,
and the value 0 is within the first field's width, yet inserting it changes the
second field's extracted value from 3 to 2, because the mask built by SETMASK
spans `width + 1` bits and clears bit 2. -/
theorem bitfield_isolation_counterexample :
    (0 : Nat) + 2 ≤ 2 ∧
    (0 : Nat) < 2 ^ 2 ∧
    FACTOR_GET 2 2 15 = 3 ∧
    FACTOR_GET 2 2 (FACTOR_SET 0 2 15 0) = 2 ∧
    FACTOR_GET 2 2 (FACTOR_SET 0 2 15 0) ≠ FACTOR_GET 2 2 15 := by
  decide

/-- C6 (amended): for every bitfield configuration whose actual mask windows —
`[offset, offset + width]`, one bit wider than the configured width, as built
by SETMASK — are pairwise disjoint and lie within the 32-bit word, and every
factor value strictly below `2 ^ width`, inserting the four values in the
source order and then extracting each field returns the original values, and
inserting a value into any one field leaves the extractions of the other three
fields unchanged. -/
theorem bitfield_roundtrip_isolation (f : clk_factors) (reg vn vk vm vp : Nat)
    (hm : f.m + f.mlen ≤ 31) (hk : f.k + f.klen ≤ 31)
    (hn : f.n + f.nlen ≤ 31) (hp : f.p + f.plen ≤ 31)
    (dmk : f.m + f.mlen < f.k ∨ f.k + f.klen < f.m)
    (dmn : f.m + f.mlen < f.n ∨ f.n + f.nlen < f.m)
    (dmp : f.m + f.mlen < f.p ∨ f.p + f.plen < f.m)
    (dkn : f.k + f.klen < f.n ∨ f.n + f.nlen < f.k)
    (dkp : f.k + f.klen < f.p ∨ f.p + f.plen < f.k)
    (dnp : f.n + f.nlen < f.p ∨ f.p + f.plen < f.n)
    (hvn : vn < 2 ^ f.nlen) (hvk : vk < 2 ^ f.klen)
    (hvm : vm < 2 ^ f.mlen) (hvp : vp < 2 ^ f.plen) :
    (FACTOR_GET f.n f.nlen (insertFactors f reg vn vk vm vp) = vn ∧
      FACTOR_GET f.k f.klen (insertFactors f reg vn vk vm vp) = vk ∧
      FACTOR_GET f.m f.mlen (insertFactors f reg vn vk vm vp) = vm ∧
      FACTOR_GET f.p f.plen (insertFactors f reg vn vk vm vp) = vp) ∧
    (∀ w r : Nat, w < 2 ^ f.mlen →
      FACTOR_GET f.k f.klen (FACTOR_SET f.m f.mlen r w) = FACTOR_GET f.k f.klen r ∧
      FACTOR_GET f.n f.nlen (FACTOR_SET f.m f.mlen r w) = FACTOR_GET f.n f.nlen r ∧
      FACTOR_GET f.p f.plen (FACTOR_SET f.m f.mlen r w) = FACTOR_GET f.p f.plen r) ∧
    (∀ w r : Nat, w < 2 ^ f.klen →
      FACTOR_GET f.m f.mlen (FACTOR_SET f.k f.klen r w) = FACTOR_GET f.m f.mlen r ∧
      FACTOR_GET f.n f.nlen (FACTOR_SET f.k f.klen r w) = FACTOR_GET f.n f.nlen r ∧
      FACTOR_GET f.p f.plen (FACTOR_SET f.k f.klen r w) = FACTOR_GET f.p f.plen r) ∧
    (∀ w r : Nat, w < 2 ^ f.nlen →
      FACTOR_GET f.m f.mlen (FACTOR_SET f.n f.nlen r w) = FACTOR_GET f.m f.mlen r ∧
      FACTOR_GET f.k f.klen (FACTOR_SET f.n f.nlen r w) = FACTOR_GET f.k f.klen r ∧
      FACTOR_GET f.p f.plen (FACTOR_SET f.n f.nlen r w) = FACTOR_GET f.p f.plen r) ∧
    (∀ w r : Nat, w < 2 ^ f.plen →
      FACTOR_GET f.m f.mlen (FACTOR_SET f.p f.plen r w) = FACTOR_GET f.m f.mlen r ∧
      FACTOR_GET f.k f.klen (FACTOR_SET f.p f.plen r w) = FACTOR_GET f.k f.klen r ∧
      FACTOR_GET f.n f.nlen (FACTOR_SET f.p f.plen r w) = FACTOR_GET f.n f.nlen r) := by
  unfold insertFactors
  refine ⟨⟨?_, ?_, ?_, ?_⟩, ?_, ?_, ?_, ?_⟩
  · rw [FACTOR_GET_SET_disjoint hp hn (Or.symm dnp) _ _ hvp,
      FACTOR_GET_SET_same hn _ _ hvn]
  · rw [FACTOR_GET_SET_disjoint hp hk (Or.symm dkp) _ _ hvp,
      FACTOR_GET_SET_disjoint hn hk (Or.symm dkn) _ _ hvn,
      FACTOR_GET_SET_same hk _ _ hvk]
  · rw [FACTOR_GET_SET_disjoint hp hm (Or.symm dmp) _ _ hvp,
      FACTOR_GET_SET_disjoint hn hm (Or.symm dmn) _ _ hvn,
      FACTOR_GET_SET_disjoint hk hm (Or.symm dmk) _ _ hvk,
      FACTOR_GET_SET_same hm _ _ hvm]
  · rw [FACTOR_GET_SET_same hp _ _ hvp]
  · intro w r hw
    exact ⟨FACTOR_GET_SET_disjoint hm hk dmk r w hw,
      FACTOR_GET_SET_disjoint hm hn dmn r w hw,
      FACTOR_GET_SET_disjoint hm hp dmp r w hw⟩
  · intro w r hw
    exact ⟨FACTOR_GET_SET_disjoint hk hm (Or.symm dmk) r w hw,
      FACTOR_GET_SET_disjoint hk hn dkn r w hw,
      FACTOR_GET_SET_disjoint hk hp dkp r w hw⟩
  · intro w r hw
    exact ⟨FACTOR_GET_SET_disjoint hn hm (Or.symm dmn) r w hw,
      FACTOR_GET_SET_disjoint hn hk (Or.symm dkn) r w hw,
      FACTOR_GET_SET_disjoint hn hp dnp r w hw⟩
  · intro w r hw
    exact ⟨FACTOR_GET_SET_disjoint hp hm (Or.symm dmp) r w hw,
      FACTOR_GET_SET_disjoint hp hk (Or.symm dkp) r w hw,
      FACTOR_GET_SET_disjoint hp hn (Or.symm dnp) r w hw⟩

/-- C6 witness: the PLL1 bitfield layout satisfies the disjoint-window
condition, and the factor set (n=20, k=1, m=0, p=0) round-trips through the
all-ones register word with full isolation. -/
theorem bitfield_roundtrip_isolation_witness :
    pll1_config.m + pll1_config.mlen ≤ 31 ∧
    pll1_config.m + pll1_config.mlen < pll1_config.k ∧
    pll1_config.k + pll1_config.klen < pll1_config.n ∧
    pll1_config.n + pll1_config.nlen < pll1_config.p ∧
    (20 : Nat) < 2 ^ pll1_config.nlen ∧
    ((FACTOR_GET pll1_config.n pll1_config.nlen
        (insertFactors pll1_config 4294967295 20 1 0 0) = 20 ∧
      FACTOR_GET pll1_config.k pll1_config.klen
        (insertFactors pll1_config 4294967295 20 1 0 0) = 1 ∧
      FACTOR_GET pll1_config.m pll1_config.mlen
        (insertFactors pll1_config 4294967295 20 1 0 0) = 0 ∧
      FACTOR_GET pll1_config.p pll1_config.plen
        (insertFactors pll1_config 4294967295 20 1 0 0) = 0) ∧
    (∀ w r : Nat, w < 2 ^ pll1_config.mlen →
      FACTOR_GET pll1_config.k pll1_config.klen
          (FACTOR_SET pll1_config.m pll1_config.mlen r w) =
        FACTOR_GET pll1_config.k pll1_config.klen r ∧
      FACTOR_GET pll1_config.n pll1_config.nlen
          (FACTOR_SET pll1_config.m pll1_config.mlen r w) =
        FACTOR_GET pll1_config.n pll1_config.nlen r ∧
      FACTOR_GET pll1_config.p pll1_config.plen
          (FACTOR_SET pll1_config.m pll1_config.mlen r w) =
        FACTOR_GET pll1_config.p pll1_config.plen r) ∧
    (∀ w r : Nat, w < 2 ^ pll1_config.klen →
      FACTOR_GET pll1_config.m pll1_config.mlen
          (FACTOR_SET pll1_config.k pll1_config.klen r w) =
        FACTOR_GET pll1_config.m pll1_config.mlen r ∧
      FACTOR_GET pll1_config.n pll1_config.nlen
          (FACTOR_SET pll1_config.k pll1_config.klen r w) =
        FACTOR_GET pll1_config.n pll1_config.nlen r ∧
      FACTOR_GET pll1_config.p pll1_config.plen
          (FACTOR_SET pll1_config.k pll1_config.klen r w) =
        FACTOR_GET pll1_config.p pll1_config.plen r) ∧
    (∀ w r : Nat, w < 2 ^ pll1_config.nlen →
      FACTOR_GET pll1_config.m pll1_config.mlen
          (FACTOR_SET pll1_config.n pll1_config.nlen r w) =
        FACTOR_GET pll1_config.m pll1_config.mlen r ∧
      FACTOR_GET pll1_config.k pll1_config.klen
          (FACTOR_SET pll1_config.n pll1_config.nlen r w) =
        FACTOR_GET pll1_config.k pll1_config.klen r ∧
      FACTOR_GET pll1_config.p pll1_config.plen
          (FACTOR_SET pll1_config.n pll1_config.nlen r w) =
        FACTOR_GET pll1_config.p pll1_config.plen r) ∧
    (∀ w r : Nat, w < 2 ^ pll1_config.plen →
      FACTOR_GET pll1_config.m pll1_config.mlen
          (FACTOR_SET pll1_config.p pll1_config.plen r w) =
        FACTOR_GET pll1_config.m pll1_config.mlen r ∧
      FACTOR_GET pll1_config.k pll1_config.klen
          (FACTOR_SET pll1_config.p pll1_config.plen r w) =
        FACTOR_GET pll1_config.k pll1_config.klen r ∧
      FACTOR_GET pll1_config.n pll1_config.nlen
          (FACTOR_SET pll1_config.p pll1_config.plen r w) =
        FACTOR_GET pll1_config.n pll1_config.nlen r)) :=
  ⟨by decide, by decide, by decide, by decide, by decide,
    bitfield_roundtrip_isolation pll1_config 4294967295 20 1 0 0
      (by decide) (by decide) (by decide) (by decide)
      (by decide) (by decide) (by decide) (by decide) (by decide) (by decide)
      (by decide) (by decide) (by decide) (by decide)⟩

end SunxiClk
